import Mathlib

/-!
Shallow embedding of the snake game engine and leaderboard store found in
the repository source (the `SnakeGame` React component). Pure game logic is
translated into Lean functions over an explicit `EngineState`; the external
collaborators (random number source, `JSON.parse`, `localStorage`, the
`setTimeout` scheduler, and the calendar date) are passed in explicitly as
parameters or modelled as state fields. Coordinates are integers, since an
out-of-bounds head computation produces values outside `[0, 20)`.
-/

namespace Snake

/-- Grid dimension N; source constant `GRID_SIZE = 20`. Integer-valued since
positions are compared with possibly negative coordinates. -/
def GRID_SIZE : Int := 20

/-- Source constant `MAX_HIGH_SCORES = 5`: the leaderboard capacity. -/
def MAX_HIGH_SCORES : Nat := 5

/-- Source constant `GAME_SPEED = 150`: the tick cadence in milliseconds. -/
def GAME_SPEED : Nat := 150

/-- A grid cell; source type `Position = { x: number; y: number }`. -/
structure Position where
  x : Int
  y : Int
deriving DecidableEq, Repr

/-- A heading; source type `Direction = { x: number; y: number }`. -/
structure Direction where
  x : Int
  y : Int
deriving DecidableEq, Repr

/-- Source type `GameState = 'playing' | 'paused' | 'gameOver' | 'waiting'`. -/
inductive GameState where
  | playing
  | paused
  | gameOver
  | waiting
deriving DecidableEq, Repr

/-- A leaderboard record; source type
`HighScore = { name: string; score: number; date: string }`. -/
structure HighScore where
  name : String
  score : Nat
  date : String
deriving DecidableEq, Repr

/-- Source constant `INITIAL_SNAKE = [{ x: 10, y: 10 }]`. -/
def INITIAL_SNAKE : List Position := [⟨10, 10⟩]

/-- Source constant `INITIAL_FOOD = { x: 15, y: 15 }`. -/
def INITIAL_FOOD : Position := ⟨15, 15⟩

/-- Source constant `INITIAL_DIRECTION = { x: 0, y: -1 }`. -/
def INITIAL_DIRECTION : Direction := ⟨0, -1⟩

/-- The component state: the `useState` hooks of `SnakeGame`, plus two modelled
fields for the external collaborators: `storage` is the value serialized under
the `snake-high-scores` key in `localStorage` (`none` = key absent), and
`pendingCheck` records a scheduled `setTimeout` callback for the delayed
high-score check together with the `score` value captured by its closure
(`none` = no timeout pending). -/
structure EngineState where
  snake : List Position
  food : Position
  direction : Direction
  gameState : GameState
  score : Nat
  highScores : List HighScore
  showNameDialog : Bool
  playerName : String
  newHighScore : Nat
  storage : Option (List HighScore)
  pendingCheck : Option Nat
deriving DecidableEq, Repr

/-- Membership test used throughout the source as
`body.some(segment => segment.x === p.x && segment.y === p.y)`. -/
def posMem (p : Position) (body : List Position) : Bool :=
  body.any fun seg => seg.x == p.x && seg.y == p.y

/-- Source `saveHighScores`: writes the given list wholesale under the
`snake-high-scores` key of `localStorage`. -/
def saveHighScores (scores : List HighScore) (s : EngineState) : EngineState :=
  { s with storage := some scores }

/-- Source `checkForNewHighScore`, boolean result only: returns `false` when
the final score is `0`; otherwise qualifies when the leaderboard is below
capacity or the final score strictly exceeds the last stored entry's score
(`highScores[highScores.length - 1]`; on an empty list that index is
`undefined` and the `>` comparison is `false`). -/
def checkForNewHighScore (highScores : List HighScore) (finalScore : Nat) : Bool :=
  if finalScore = 0 then false
  else if highScores.length < MAX_HIGH_SCORES then true
  else
    match highScores.getLast? with
    | some r => finalScore > r.score
    | none => false

/-- Source `checkForNewHighScore`, state effect: on a qualifying score it runs
`setNewHighScore(finalScore)` and `setShowNameDialog(true)`; otherwise it
changes nothing. -/
def checkForNewHighScoreEffect (finalScore : Nat) (s : EngineState) : EngineState :=
  if checkForNewHighScore s.highScores finalScore then
    { s with newHighScore := finalScore, showNameDialog := true }
  else s

/-- Model of JavaScript `String.prototype.trim`: removes leading and trailing
whitespace characters. -/
def jsTrim (str : String) : String :=
  String.mk (((str.data.dropWhile Char.isWhitespace).reverse.dropWhile
    Char.isWhitespace).reverse)

/-- Descending insertion by score, placing the inserted record after existing
records of equal score, as a stable sort of `[...highScores, newScore]` does. -/
def insertDesc (r : HighScore) : List HighScore → List HighScore
  | [] => [r]
  | x :: xs => if r.score ≤ x.score then x :: insertDesc r xs else r :: x :: xs

/-- Model of `.sort((a, b) => b.score - a.score)`: a stable sort by score
descending (JavaScript `Array.prototype.sort` is stable). -/
def sortDesc (l : List HighScore) : List HighScore :=
  l.foldr insertDesc []

/-- Source `savePlayerHighScore`: a blank (all-whitespace) player name is a
no-op; otherwise it appends the record built from the trimmed name, the
pending `newHighScore` and the current date, re-sorts descending by score,
truncates to `MAX_HIGH_SCORES`, stores and persists the result, closes the
dialog and clears the name field. `today` is the external
`new Date().toLocaleDateString()` value. -/
def savePlayerHighScore (today : String) (s : EngineState) : EngineState :=
  if jsTrim s.playerName = "" then s
  else
    let newScore : HighScore := ⟨jsTrim s.playerName, s.newHighScore, today⟩
    let updatedScores := (sortDesc (s.highScores ++ [newScore])).take MAX_HIGH_SCORES
    saveHighScores updatedScores
      { s with highScores := updatedScores, showNameDialog := false, playerName := "" }

/-- Source `generateFood`: draws random cells until one is free of the given
snake body. The random source is modelled as the list `cands` of successive
draws of `{ Math.floor(Math.random()*GRID_SIZE), ... }`; the result is the
first draw not on the body, `none` when the supplied draws are exhausted
(the source loop would keep drawing). -/
def generateFood (snakeBody : List Position) (cands : List Position) : Option Position :=
  cands.find? fun c => !(posMem c snakeBody)

/-- Source `resetGame`: reinitializes snake, food, direction, score and sets
the game state to `waiting`. It does not touch the leaderboard, the dialog
fields, nor any pending `setTimeout` (the source never calls `clearTimeout`). -/
def resetGame (s : EngineState) : EngineState :=
  { s with snake := INITIAL_SNAKE, food := INITIAL_FOOD,
           direction := INITIAL_DIRECTION, score := 0,
           gameState := GameState.waiting }

/-- Source `startGame`: unconditionally `setGameState('playing')`. -/
def startGame (s : EngineState) : EngineState :=
  { s with gameState := GameState.playing }

/-- Source `pauseGame`:
`setGameState(gameState === 'paused' ? 'playing' : 'paused')`. -/
def pauseGame (s : EngineState) : EngineState :=
  { s with gameState :=
      if s.gameState = GameState.paused then GameState.playing
      else GameState.paused }

/-- Whether the computed new head lies outside the grid; source condition
`head.x < 0 || head.x >= GRID_SIZE || head.y < 0 || head.y >= GRID_SIZE`. -/
def outOfBounds (p : Position) : Prop :=
  p.x < 0 ∨ GRID_SIZE ≤ p.x ∨ p.y < 0 ∨ GRID_SIZE ≤ p.y

instance (p : Position) : Decidable (outOfBounds p) := by
  unfold outOfBounds; infer_instance

/-- Source `moveSnake`, one tick. Not `playing` → unchanged. Otherwise the new
head is the old head displaced by the current direction; a wall or
self-collision (checked against the full pre-move body) sets `gameOver`,
schedules the delayed high-score check with the current `score` captured, and
leaves snake/food/score untouched. Otherwise the head is prepended; eating the
food adds 10 to the score and regenerates the food against the grown body
(`none` when `cands` is exhausted, modelling the unbounded resampling loop);
a non-eating move pops the tail. The empty-snake branch is unreachable (the
snake always has length ≥ 1, proved below) and returns the state unchanged. -/
def moveSnake (cands : List Position) (s : EngineState) : Option EngineState :=
  if s.gameState ≠ GameState.playing then some s
  else
    match s.snake with
    | [] => some s
    | h :: _ =>
      let head : Position := ⟨h.x + s.direction.x, h.y + s.direction.y⟩
      if outOfBounds head then
        some { s with gameState := GameState.gameOver,
                      pendingCheck := some s.score }
      else if posMem head s.snake then
        some { s with gameState := GameState.gameOver,
                      pendingCheck := some s.score }
      else
        let newSnake := head :: s.snake
        if head.x = s.food.x ∧ head.y = s.food.y then
          match generateFood newSnake cands with
          | some f =>
            some { s with snake := newSnake, score := s.score + 10, food := f }
          | none => none
        else
          some { s with snake := newSnake.dropLast }

/-- Keyboard events relevant to `handleKeyPress` (arrow keys and space; any
other key falls through the switch). -/
inductive Key where
  | arrowUp
  | arrowDown
  | arrowLeft
  | arrowRight
  | space
  | other
deriving DecidableEq, Repr

/-- Source `handleKeyPress`: ignored while `gameOver` or `waiting`; arrow keys
set the direction only when the current direction's matching axis component is
zero (the no-180°-reversal guard); space toggles pause. -/
def handleKeyPress (k : Key) (s : EngineState) : EngineState :=
  if s.gameState = GameState.gameOver ∨ s.gameState = GameState.waiting then s
  else
    match k with
    | Key.arrowUp =>
      if s.direction.y = 0 then { s with direction := ⟨0, -1⟩ } else s
    | Key.arrowDown =>
      if s.direction.y = 0 then { s with direction := ⟨0, 1⟩ } else s
    | Key.arrowLeft =>
      if s.direction.x = 0 then { s with direction := ⟨-1, 0⟩ } else s
    | Key.arrowRight =>
      if s.direction.x = 0 then { s with direction := ⟨1, 0⟩ } else s
    | Key.space => pauseGame s
    | Key.other => s

/-- The delayed `setTimeout(() => checkForNewHighScore(score), 100)` callback
firing: it runs `checkForNewHighScore` with the score value captured at the
game-over tick, reading the leaderboard in the state current at firing time. -/
def fireTimeout (s : EngineState) : EngineState :=
  match s.pendingCheck with
  | some captured => checkForNewHighScoreEffect captured { s with pendingCheck := none }
  | none => s

/-- The `useState` initializer of `highScores`:
`saved ? JSON.parse(saved) : []`. `saved` is the `localStorage` read (`none` =
key absent); `parsed` is the outcome `JSON.parse` would have on that string
(`none` = the string is malformed and `JSON.parse` throws, which this
initializer does not catch, so the exception propagates as `Except.error`).
An empty stored string is falsy in JavaScript, so it yields `[]` unparsed. -/
def loadHighScores (saved : Option String) (parsed : Option (List HighScore)) :
    Except Unit (List HighScore) :=
  match saved with
  | none => Except.ok []
  | some str =>
    if str = "" then Except.ok []
    else
      match parsed with
      | some v => Except.ok v
      | none => Except.error ()

/-- The component's initial state: the `useState` defaults, with the
leaderboard loaded from storage when it parses (a failed parse never reaches a
state at all; this definition takes the already-loaded list). -/
def initialState (loaded : List HighScore) (stored : Option (List HighScore)) :
    EngineState :=
  { snake := INITIAL_SNAKE, food := INITIAL_FOOD, direction := INITIAL_DIRECTION,
    gameState := GameState.waiting, score := 0, highScores := loaded,
    showNameDialog := false, playerName := "", newHighScore := 0,
    storage := stored, pendingCheck := none }

/-- The head the next tick will compute: `snake[0]` displaced by the current
direction (the spread-and-increment at the top of `moveSnake`). The nil branch
is unreachable: the snake always has length ≥ 1. -/
def nextHead (s : EngineState) : Position :=
  match s.snake with
  | [] => ⟨s.direction.x, s.direction.y⟩
  | h :: _ => ⟨h.x + s.direction.x, h.y + s.direction.y⟩

/-- The direction an arrow key requests (`none` for non-directional keys). -/
def keyTargetDir : Key → Option Direction
  | Key.arrowUp => some ⟨0, -1⟩
  | Key.arrowDown => some ⟨0, 1⟩
  | Key.arrowLeft => some ⟨-1, 0⟩
  | Key.arrowRight => some ⟨1, 0⟩
  | Key.space => none
  | Key.other => none

/-- The `handleKeyPress` guard for an arrow key against the current buffered
direction: the component on the requested axis must be zero. -/
def keyAccepted (k : Key) (d : Direction) : Bool :=
  match k with
  | Key.arrowUp => d.y == 0
  | Key.arrowDown => d.y == 0
  | Key.arrowLeft => d.x == 0
  | Key.arrowRight => d.x == 0
  | Key.space => false
  | Key.other => false

/-- Sequential delivery of key events between two ticks. -/
def applyKeys (ks : List Key) (s : EngineState) : EngineState :=
  ks.foldl (fun st k => handleKeyPress k st) s

/-- The leaderboard ordering invariant: scores are sorted descending. -/
def ScoresSorted (l : List HighScore) : Prop :=
  l.Pairwise fun a b => b.score ≤ a.score

instance (l : List HighScore) : Decidable (ScoresSorted l) := by
  unfold ScoresSorted; infer_instance

/-- The minimum score stored on the leaderboard (`none` when empty). -/
def lowestScore : List HighScore → Option Nat
  | [] => none
  | r :: rest =>
    match lowestScore rest with
    | none => some r.score
    | some m => some (min r.score m)

/-- Well-formedness of the snake body: nonempty and free of duplicates. -/
def SnakeWF (s : EngineState) : Prop :=
  s.snake ≠ [] ∧ s.snake.Nodup

/-- The states the component can reach: the initial state (with any loaded
leaderboard), closed under every operation an external collaborator can
invoke: the reset/start/pause buttons, key events, ticks (for any draw of the
random source), typing in the name field, submitting or skipping the name
dialog, and the delayed high-score timeout firing. -/
inductive Reachable : EngineState → Prop where
  | init (loaded : List HighScore) (stored : Option (List HighScore)) :
      Reachable (initialState loaded stored)
  | reset {s : EngineState} : Reachable s → Reachable (resetGame s)
  | start {s : EngineState} : Reachable s → Reachable (startGame s)
  | key {s : EngineState} (k : Key) : Reachable s → Reachable (handleKeyPress k s)
  | tick {s s' : EngineState} (cands : List Position) :
      Reachable s → moveSnake cands s = some s' → Reachable s'
  | nameInput {s : EngineState} (n : String) :
      Reachable s → Reachable { s with playerName := n }
  | submit {s : EngineState} (today : String) :
      Reachable s → Reachable (savePlayerHighScore today s)
  | skipDialog {s : EngineState} :
      Reachable s → Reachable { s with showNameDialog := false }
  | timeout {s : EngineState} : Reachable s → Reachable (fireTimeout s)

/-- The componentwise membership test of the source decides list membership. -/
theorem posMem_iff (p : Position) (body : List Position) :
    posMem p body = true ↔ p ∈ body := by
  unfold posMem
  rw [List.any_eq_true]
  constructor
  · rintro ⟨q, hq, hqp⟩
    obtain ⟨qx, qy⟩ := q
    obtain ⟨px, py⟩ := p
    simp only [Bool.and_eq_true, beq_iff_eq] at hqp
    obtain ⟨hx, hy⟩ := hqp
    subst hx; subst hy
    exact hq
  · intro hp
    exact ⟨p, hp, by simp⟩

/-- Membership in an insertion is membership in the source list or equality
with the inserted record. -/
theorem mem_insertDesc (r b : HighScore) :
    ∀ l : List HighScore, b ∈ insertDesc r l ↔ b = r ∨ b ∈ l := by
  intro l
  induction l with
  | nil => simp [insertDesc]
  | cons x xs ih =>
    by_cases h : r.score ≤ x.score
    · simp only [insertDesc, if_pos h, List.mem_cons, ih]
      tauto
    · simp only [insertDesc, if_neg h, List.mem_cons]

/-- Insertion at the descending position preserves the sorted invariant. -/
theorem sorted_insertDesc (r : HighScore) :
    ∀ l : List HighScore, ScoresSorted l → ScoresSorted (insertDesc r l) := by
  intro l
  induction l with
  | nil =>
    intro _
    simp [insertDesc, ScoresSorted]
  | cons x xs ih =>
    intro h
    unfold ScoresSorted at h
    rw [List.pairwise_cons] at h
    obtain ⟨hx, hxs⟩ := h
    by_cases hr : r.score ≤ x.score
    · show ScoresSorted (if r.score ≤ x.score then x :: insertDesc r xs
        else r :: x :: xs)
      rw [if_pos hr]
      unfold ScoresSorted
      rw [List.pairwise_cons]
      refine ⟨?_, ih hxs⟩
      intro b hb
      rcases (mem_insertDesc r b xs).mp hb with rfl | hbxs
      · exact hr
      · exact hx b hbxs
    · show ScoresSorted (if r.score ≤ x.score then x :: insertDesc r xs
        else r :: x :: xs)
      rw [if_neg hr]
      unfold ScoresSorted
      rw [List.pairwise_cons]
      constructor
      · intro b hb
        rcases List.mem_cons.mp hb with rfl | hbxs
        · omega
        · exact le_trans (hx b hbxs) (by omega)
      · rw [List.pairwise_cons]
        exact ⟨hx, hxs⟩

/-- The modelled sort produces a descending-sorted leaderboard. -/
theorem sorted_sortDesc (l : List HighScore) : ScoresSorted (sortDesc l) := by
  induction l with
  | nil => simp [sortDesc, ScoresSorted]
  | cons x xs ih => exact sorted_insertDesc x (sortDesc xs) ih

/-- A last element is a member. -/
theorem getLast?_mem_list :
    ∀ (l : List HighScore) (r : HighScore), l.getLast? = some r → r ∈ l := by
  intro l
  induction l with
  | nil =>
    intro r h
    simp at h
  | cons a tail ih =>
    intro r h
    cases tail with
    | nil =>
      simp only [List.getLast?_singleton, Option.some.injEq] at h
      subst h
      exact List.mem_singleton_self a
    | cons b rest =>
      rw [List.getLast?_cons_cons] at h
      exact List.mem_cons_of_mem a (ih r h)

/-- On a descending-sorted leaderboard the last entry carries the lowest
stored score. -/
theorem sorted_getLast_lowest (l : List HighScore) :
    ∀ r : HighScore, ScoresSorted l → l.getLast? = some r →
      lowestScore l = some r.score := by
  induction l with
  | nil =>
    intro r _ h
    simp at h
  | cons a tail ih =>
    intro r hs hlast
    unfold ScoresSorted at hs
    rw [List.pairwise_cons] at hs
    obtain ⟨ha, hs'⟩ := hs
    cases tail with
    | nil =>
      simp only [List.getLast?_singleton, Option.some.injEq] at hlast
      subst hlast
      simp [lowestScore]
    | cons b rest =>
      rw [List.getLast?_cons_cons] at hlast
      have hlow := ih r hs' hlast
      have hrmem : r ∈ b :: rest := getLast?_mem_list _ r hlast
      have hra : r.score ≤ a.score := ha r hrmem
      show lowestScore (a :: b :: rest) = some r.score
      unfold lowestScore
      rw [hlow]
      simp [Nat.min_eq_right hra]

/-- Unfolding of `moveSnake` in the `playing` state with a nonempty snake. -/
theorem moveSnake_cons (cands : List Position) (s : EngineState) (hd : Position)
    (tl : List Position) (hplay : s.gameState = GameState.playing)
    (hsn : s.snake = hd :: tl) :
    moveSnake cands s =
      (if outOfBounds ⟨hd.x + s.direction.x, hd.y + s.direction.y⟩ then
        some { s with gameState := GameState.gameOver, pendingCheck := some s.score }
      else if posMem ⟨hd.x + s.direction.x, hd.y + s.direction.y⟩ (hd :: tl) then
        some { s with gameState := GameState.gameOver, pendingCheck := some s.score }
      else if hd.x + s.direction.x = s.food.x ∧ hd.y + s.direction.y = s.food.y then
        match generateFood
            (⟨hd.x + s.direction.x, hd.y + s.direction.y⟩ :: hd :: tl) cands with
        | some f =>
          some { s with
            snake := ⟨hd.x + s.direction.x, hd.y + s.direction.y⟩ :: hd :: tl,
            score := s.score + 10, food := f }
        | none => none
      else
        some { s with
          snake :=
            (⟨hd.x + s.direction.x, hd.y + s.direction.y⟩ :: hd :: tl).dropLast }) := by
  unfold moveSnake
  rw [if_neg (by simp [hplay]), hsn]

/-- A tick keeps the snake nonempty and duplicate-free. -/
theorem moveSnake_snakeWF (cands : List Position) (s s' : EngineState)
    (hwf : SnakeWF s) (hrun : moveSnake cands s = some s') : SnakeWF s' := by
  obtain ⟨hne, hnd⟩ := hwf
  by_cases hgs : s.gameState = GameState.playing
  · cases hsn : s.snake with
    | nil => exact absurd hsn hne
    | cons hd tl =>
      rw [hsn] at hnd
      rw [moveSnake_cons cands s hd tl hgs hsn] at hrun
      by_cases hw : outOfBounds ⟨hd.x + s.direction.x, hd.y + s.direction.y⟩
      · rw [if_pos hw] at hrun
        injection hrun with h
        subst h
        exact ⟨by simp [hsn], by show s.snake.Nodup; rw [hsn]; exact hnd⟩
      · rw [if_neg hw] at hrun
        by_cases hpm :
            posMem ⟨hd.x + s.direction.x, hd.y + s.direction.y⟩ (hd :: tl) = true
        · rw [if_pos hpm] at hrun
          injection hrun with h
          subst h
          exact ⟨by simp [hsn], by show s.snake.Nodup; rw [hsn]; exact hnd⟩
        · rw [if_neg hpm] at hrun
          have hnotmem :
              (⟨hd.x + s.direction.x, hd.y + s.direction.y⟩ : Position) ∉ hd :: tl :=
            fun hc => hpm ((posMem_iff _ _).mpr hc)
          have hndgrown :
              ((⟨hd.x + s.direction.x, hd.y + s.direction.y⟩ : Position) ::
                hd :: tl).Nodup :=
            List.nodup_cons.mpr ⟨hnotmem, hnd⟩
          by_cases hf : hd.x + s.direction.x = s.food.x ∧
              hd.y + s.direction.y = s.food.y
          · rw [if_pos hf] at hrun
            cases hg : generateFood
                (⟨hd.x + s.direction.x, hd.y + s.direction.y⟩ :: hd :: tl) cands with
            | none => rw [hg] at hrun; exact absurd hrun (by simp)
            | some f =>
              rw [hg] at hrun
              injection hrun with h
              subst h
              exact ⟨by simp, hndgrown⟩
          · rw [if_neg hf] at hrun
            injection hrun with h
            subst h
            refine ⟨by simp [List.dropLast_cons₂], ?_⟩
            exact hndgrown.sublist (List.dropLast_sublist _)
  · unfold moveSnake at hrun
    rw [if_pos hgs] at hrun
    injection hrun with h
    subst h
    exact ⟨hne, hnd⟩

/-- Key handling never touches the snake body. -/
theorem handleKeyPress_snake (k : Key) (s : EngineState) :
    (handleKeyPress k s).snake = s.snake := by
  unfold handleKeyPress pauseGame
  split
  · rfl
  · split <;> try rfl
    all_goals split <;> rfl

/-- The qualification side effect never touches the snake body. -/
theorem checkEffect_snake (c : Nat) (s : EngineState) :
    (checkForNewHighScoreEffect c s).snake = s.snake := by
  unfold checkForNewHighScoreEffect
  split <;> rfl

/-- The delayed timeout firing never touches the snake body. -/
theorem fireTimeout_snake (s : EngineState) :
    (fireTimeout s).snake = s.snake := by
  unfold fireTimeout
  split
  · rw [checkEffect_snake]
  · rfl

/-- Committing a leaderboard record never touches the snake body. -/
theorem savePlayerHighScore_snake (today : String) (s : EngineState) :
    (savePlayerHighScore today s).snake = s.snake := by
  unfold savePlayerHighScore saveHighScores
  split <;> rfl

/-- Every reachable state has a nonempty, duplicate-free snake. -/
theorem reachable_snakeWF {s : EngineState} (h : Reachable s) : SnakeWF s := by
  induction h with
  | init loaded stored =>
    exact ⟨by simp [initialState, INITIAL_SNAKE], by simp [initialState, INITIAL_SNAKE]⟩
  | reset _ _ =>
    exact ⟨by simp [resetGame, INITIAL_SNAKE], by simp [resetGame, INITIAL_SNAKE]⟩
  | start _ ih => exact ih
  | key k _ ih =>
    unfold SnakeWF
    rw [handleKeyPress_snake]
    exact ih
  | tick cands _ hrun ih => exact moveSnake_snakeWF _ _ _ ih hrun
  | nameInput n _ ih => exact ih
  | submit today _ ih =>
    unfold SnakeWF
    rw [savePlayerHighScore_snake]
    exact ih
  | skipDialog _ ih => exact ih
  | timeout _ ih =>
    unfold SnakeWF
    rw [fireTimeout_snake]
    exact ih

/-- C1: for every tick taken while `playing`, if the computed new head lies
outside `[0, GRID_SIZE)` on either axis or equals any segment of the full
pre-move snake body (the soon-to-be-vacated tail included), the engine
transitions to `gameOver` (scheduling the delayed high-score check with the
current score captured) and leaves the snake, the food, and the score
unchanged: the move is not applied. -/
theorem moveSnake_collision_gameOver (cands : List Position) (s : EngineState)
    (hplay : s.gameState = GameState.playing) (hne : s.snake ≠ [])
    (hcol : outOfBounds (nextHead s) ∨ nextHead s ∈ s.snake) :
    moveSnake cands s =
      some { s with gameState := GameState.gameOver,
                    pendingCheck := some s.score } := by
  cases hsn : s.snake with
  | nil => exact absurd hsn hne
  | cons hd tl =>
    have hnh : nextHead s = ⟨hd.x + s.direction.x, hd.y + s.direction.y⟩ := by
      unfold nextHead; rw [hsn]
    rw [moveSnake_cons cands s hd tl hplay hsn]
    by_cases hw : outOfBounds ⟨hd.x + s.direction.x, hd.y + s.direction.y⟩
    · rw [if_pos hw, hsn]
    · rw [if_neg hw]
      have hmem : nextHead s ∈ s.snake := by
        rcases hcol with h | h
        · rw [hnh] at h
          exact absurd h hw
        · exact h
      rw [hnh, hsn] at hmem
      rw [if_pos ((posMem_iff _ _).mpr hmem), hsn]

/-- Witness for C1: a length-4 snake whose next head lands on its own
soon-to-be-vacated tail dies on the tick, with snake, food and score frozen. -/
theorem moveSnake_collision_gameOver_witness :
    moveSnake []
        { initialState [] none with
            snake := [⟨5, 5⟩, ⟨5, 6⟩, ⟨6, 6⟩, ⟨6, 5⟩], direction := ⟨1, 0⟩,
            gameState := GameState.playing, score := 30 } =
      some { initialState [] none with
              snake := [⟨5, 5⟩, ⟨5, 6⟩, ⟨6, 6⟩, ⟨6, 5⟩], direction := ⟨1, 0⟩,
              gameState := GameState.gameOver, score := 30,
              pendingCheck := some 30 } :=
  moveSnake_collision_gameOver []
    { initialState [] none with
        snake := [⟨5, 5⟩, ⟨5, 6⟩, ⟨6, 6⟩, ⟨6, 5⟩], direction := ⟨1, 0⟩,
        gameState := GameState.playing, score := 30 }
    rfl (by decide) (Or.inr (by decide))

/-- C2: a tick taken while `playing` that does not end the game increments
the score by exactly 10 and grows the snake by exactly one segment (the tail
is kept) when the new head equals the food, relocating the food to a cell
not occupied by any segment of the grown snake, the new head included;
otherwise the tail is removed and the length, score, and food are unchanged. -/
theorem moveSnake_step_spec (cands : List Position) (s s' : EngineState)
    (hplay : s.gameState = GameState.playing) (hne : s.snake ≠ [])
    (hin : ¬ outOfBounds (nextHead s)) (hself : nextHead s ∉ s.snake)
    (hrun : moveSnake cands s = some s') :
    (nextHead s = s.food →
        s'.score = s.score + 10 ∧ s'.snake.length = s.snake.length + 1 ∧
        s'.snake = nextHead s :: s.snake ∧ s'.food ∉ s'.snake) ∧
    (nextHead s ≠ s.food →
        s'.snake = (nextHead s :: s.snake).dropLast ∧
        s'.snake.length = s.snake.length ∧
        s'.score = s.score ∧ s'.food = s.food) := by
  cases hsn : s.snake with
  | nil => exact absurd hsn hne
  | cons hd tl =>
    have hnh : nextHead s = ⟨hd.x + s.direction.x, hd.y + s.direction.y⟩ := by
      unfold nextHead; rw [hsn]
    rw [moveSnake_cons cands s hd tl hplay hsn] at hrun
    have hin' : ¬ outOfBounds ⟨hd.x + s.direction.x, hd.y + s.direction.y⟩ := by
      rw [← hnh]; exact hin
    have hself' :
        ¬ posMem ⟨hd.x + s.direction.x, hd.y + s.direction.y⟩ (hd :: tl) = true := by
      intro hc
      rw [hnh, hsn] at hself
      exact hself ((posMem_iff _ _).mp hc)
    rw [if_neg hin', if_neg hself'] at hrun
    constructor
    · intro hfood
      have hfeq :
          (⟨hd.x + s.direction.x, hd.y + s.direction.y⟩ : Position) = s.food := by
        rw [← hnh]; exact hfood
      rw [if_pos ⟨by rw [← hfeq], by rw [← hfeq]⟩] at hrun
      cases hg : generateFood
          (⟨hd.x + s.direction.x, hd.y + s.direction.y⟩ :: hd :: tl) cands with
      | none =>
        rw [hg] at hrun
        exact absurd hrun (by simp)
      | some f =>
        rw [hg] at hrun
        injection hrun with h
        subst h
        refine ⟨rfl, by simp, by rw [hnh], ?_⟩
        intro hc
        have hfree := List.find?_some hg
        simp only [Bool.not_eq_true'] at hfree
        rw [(posMem_iff _ _).mpr hc] at hfree
        cases hfree
    · intro hfood
      have hcond : ¬(hd.x + s.direction.x = s.food.x ∧
          hd.y + s.direction.y = s.food.y) := by
        rintro ⟨h1, h2⟩
        apply hfood
        rw [hnh]
        show (⟨hd.x + s.direction.x, hd.y + s.direction.y⟩ : Position) = s.food
        rw [h1, h2]
      rw [if_neg hcond] at hrun
      injection hrun with h
      subst h
      refine ⟨by rw [hnh], ?_, rfl, rfl⟩
      simp [List.length_dropLast]

/-- Witness for C2: a one-segment snake eats the food directly above it; the
score goes from 0 to 10, the body grows to two segments, and the food moves
to a free cell. -/
theorem moveSnake_step_spec_witness :
    nextHead { initialState [] none with
        food := ⟨10, 9⟩, gameState := GameState.playing } =
      ({ initialState [] none with
          food := ⟨10, 9⟩, gameState := GameState.playing } : EngineState).food ∧
    ({ initialState [] none with
        food := ⟨0, 0⟩, gameState := GameState.playing,
        snake := [⟨10, 9⟩, ⟨10, 10⟩], score := 10 } : EngineState).score =
      ({ initialState [] none with
          food := ⟨10, 9⟩, gameState := GameState.playing } : EngineState).score + 10 ∧
    ({ initialState [] none with
        food := ⟨0, 0⟩, gameState := GameState.playing,
        snake := [⟨10, 9⟩, ⟨10, 10⟩], score := 10 } : EngineState).snake.length =
      ({ initialState [] none with
          food := ⟨10, 9⟩, gameState := GameState.playing } : EngineState).snake.length
        + 1 ∧
    ({ initialState [] none with
        food := ⟨0, 0⟩, gameState := GameState.playing,
        snake := [⟨10, 9⟩, ⟨10, 10⟩], score := 10 } : EngineState).snake =
      nextHead { initialState [] none with
          food := ⟨10, 9⟩, gameState := GameState.playing } ::
        ({ initialState [] none with
            food := ⟨10, 9⟩, gameState := GameState.playing } : EngineState).snake ∧
    ({ initialState [] none with
        food := ⟨0, 0⟩, gameState := GameState.playing,
        snake := [⟨10, 9⟩, ⟨10, 10⟩], score := 10 } : EngineState).food ∉
      ({ initialState [] none with
          food := ⟨0, 0⟩, gameState := GameState.playing,
          snake := [⟨10, 9⟩, ⟨10, 10⟩], score := 10 } : EngineState).snake := by
  refine ⟨by decide, ?_⟩
  have h := (moveSnake_step_spec [⟨0, 0⟩]
    { initialState [] none with food := ⟨10, 9⟩, gameState := GameState.playing }
    { initialState [] none with
        food := ⟨0, 0⟩, gameState := GameState.playing,
        snake := [⟨10, 9⟩, ⟨10, 10⟩], score := 10 }
    rfl (by decide) (by decide) (by decide) (by decide)).1 (by decide)
  exact ⟨h.1, h.2.1, h.2.2.1, h.2.2.2⟩

/-- C3: on a descending-sorted leaderboard, `checkForNewHighScore` returns
`true` iff the candidate score is positive and either the leaderboard is
below its capacity of 5 or the candidate strictly exceeds the lowest stored
score. In particular a score of exactly 0 never qualifies (even on an empty
leaderboard), and at capacity a candidate equal to the current minimum does
not qualify. -/
theorem checkForNewHighScore_spec (hs : List HighScore) (c : Nat)
    (h : ScoresSorted hs) :
    checkForNewHighScore hs c = true ↔
      0 < c ∧ (hs.length < MAX_HIGH_SCORES ∨
        ∃ m, lowestScore hs = some m ∧ m < c) := by
  unfold checkForNewHighScore
  by_cases hc : c = 0
  · subst hc
    simp
  · rw [if_neg hc]
    by_cases hlen : hs.length < MAX_HIGH_SCORES
    · rw [if_pos hlen]
      simp [hlen, Nat.pos_of_ne_zero hc]
    · rw [if_neg hlen]
      have hne : hs ≠ [] := by
        intro h0
        subst h0
        simp [MAX_HIGH_SCORES] at hlen
      obtain ⟨r, hr⟩ :=
        Option.isSome_iff_exists.mp (List.getLast?_isSome.mpr hne)
      rw [hr]
      have hlow := sorted_getLast_lowest hs r h hr
      simp only [decide_eq_true_eq]
      constructor
      · intro hgt
        exact ⟨Nat.pos_of_ne_zero hc, Or.inr ⟨r.score, hlow, hgt⟩⟩
      · rintro ⟨-, hl | ⟨m, hm, hlt⟩⟩
        · exact absurd hl hlen
        · rw [hlow] at hm
          injection hm with hm'
          omega

/-- Witness for C3: on a full board of five 100-point entries, a candidate
of 101 qualifies (and the same theorem at 100 or 0 yields false). -/
theorem checkForNewHighScore_spec_witness :
    checkForNewHighScore
      [⟨"a", 100, "d1"⟩, ⟨"b", 100, "d2"⟩, ⟨"c", 100, "d3"⟩,
        ⟨"d", 100, "d4"⟩, ⟨"e", 100, "d5"⟩] 101 = true :=
  (checkForNewHighScore_spec
      [⟨"a", 100, "d1"⟩, ⟨"b", 100, "d2"⟩, ⟨"c", 100, "d3"⟩,
        ⟨"d", 100, "d4"⟩, ⟨"e", 100, "d5"⟩] 101 (by decide)).mpr
    ⟨by decide, Or.inr ⟨100, by decide, by decide⟩⟩

/-- C4 counterexample: the persisted string `"x"` is present but malformed
(`JSON.parse` throws on it, modelled by `parsed = none`); the initializer
propagates the failure instead of yielding the empty sequence. -/
theorem loadHighScores_malformed_fails :
    loadHighScores (some "x") none = Except.error () := rfl

/-- C4 as amended: loading yields the stored record sequence when the
persisted string parses; an absent key (or an empty stored string, which is
falsy) yields the empty sequence; but a present malformed string makes
loading fail with the uncaught `JSON.parse` exception rather than falling
back to empty. -/
theorem loadHighScores_amended (str : String) (v : List HighScore) :
    loadHighScores none none = Except.ok ([] : List HighScore) ∧
    loadHighScores (some "") none = Except.ok ([] : List HighScore) ∧
    (str ≠ "" →
      loadHighScores (some str) (some v) = Except.ok v ∧
      loadHighScores (some str) none = Except.error ()) := by
  refine ⟨rfl, rfl, ?_⟩
  intro hstr
  constructor
  · unfold loadHighScores
    dsimp only
    rw [if_neg hstr]
  · unfold loadHighScores
    dsimp only
    rw [if_neg hstr]

/-- Witness for C4's amended claim at the malformed string `"x"` and the
stored value `[]`. -/
theorem loadHighScores_amended_witness :
    ("x" : String) ≠ "" ∧
    loadHighScores (some "x") (some []) = Except.ok ([] : List HighScore) ∧
    loadHighScores (some "x") none = Except.error () :=
  ⟨by decide, (loadHighScores_amended "x" []).2.2 (by decide)⟩

/-- C5: the space key (the pause command) toggles between `playing` and
`paused`, and from `waiting` or `gameOver` it leaves the whole state
unchanged. -/
theorem togglePause_spec (s : EngineState) :
    (s.gameState = GameState.playing →
        handleKeyPress Key.space s = { s with gameState := GameState.paused }) ∧
    (s.gameState = GameState.paused →
        handleKeyPress Key.space s = { s with gameState := GameState.playing }) ∧
    ((s.gameState = GameState.waiting ∨ s.gameState = GameState.gameOver) →
        handleKeyPress Key.space s = s) := by
  refine ⟨?_, ?_, ?_⟩
  · intro h
    simp [handleKeyPress, pauseGame, h]
  · intro h
    simp [handleKeyPress, pauseGame, h]
  · rintro (h | h) <;> simp [handleKeyPress, h]

/-- Witness for C5: pressing space right after starting pauses the game. -/
theorem togglePause_spec_witness :
    handleKeyPress Key.space (startGame (initialState [] none)) =
      { startGame (initialState [] none) with gameState := GameState.paused } :=
  (togglePause_spec (startGame (initialState [] none))).1 rfl

/-- C6 (violated by the code): `resetGame` clears no scheduled timeout and
`checkForNewHighScore` consults no game state, so the delayed high-score
check fires after a reset — and even after the next game has been started —
with the stale captured score, and opens the name-entry dialog. The scenario:
a game with score 10 hits the left wall, the player resets and starts a new
game before the 100 ms timeout fires, then it fires. -/
theorem stale_highscore_prompt_after_reset :
    ∃ s' : EngineState,
      moveSnake []
          { initialState [] none with
              snake := [⟨0, 5⟩], direction := ⟨-1, 0⟩,
              gameState := GameState.playing, score := 10 } = some s' ∧
      s'.gameState = GameState.gameOver ∧
      (fireTimeout (startGame (resetGame s'))).showNameDialog = true ∧
      (fireTimeout (startGame (resetGame s'))).newHighScore = 10 ∧
      (fireTimeout (startGame (resetGame s'))).score = 0 := by
  refine ⟨{ initialState [] none with
      snake := [⟨0, 5⟩], direction := ⟨-1, 0⟩,
      gameState := GameState.gameOver, score := 10,
      pendingCheck := some 10 }, ?_, rfl, ?_, ?_, rfl⟩
  · decide
  · decide
  · decide

/-- C7: an arrow-key request anti-parallel to the buffered next-tick
direction is ignored (no 180° reversal) — in particular with heading (1,0) a
(-1,0) request leaves the direction unchanged — and among several requests
delivered between ticks the last accepted one determines the direction at
the next tick, while a rejected final request leaves the buffered direction
where the previous requests put it. -/
theorem setDirection_spec (s : EngineState) (ks : List Key) (k : Key)
    (d : Direction) :
    (keyTargetDir k = some d → d.x = -s.direction.x → d.y = -s.direction.y →
        handleKeyPress k s = s) ∧
    (s.direction = ⟨1, 0⟩ →
        (handleKeyPress Key.arrowLeft s).direction = s.direction) ∧
    (keyTargetDir k = some d →
        (applyKeys ks s).gameState ≠ GameState.gameOver →
        (applyKeys ks s).gameState ≠ GameState.waiting →
        ((keyAccepted k (applyKeys ks s).direction = true →
            (applyKeys (ks ++ [k]) s).direction = d) ∧
         (keyAccepted k (applyKeys ks s).direction = false →
            (applyKeys (ks ++ [k]) s).direction = (applyKeys ks s).direction))) := by
  have happ : applyKeys (ks ++ [k]) s = handleKeyPress k (applyKeys ks s) := by
    simp [applyKeys]
  refine ⟨?_, ?_, ?_⟩
  · intro hd hx hy
    cases k with
    | arrowUp =>
      simp only [keyTargetDir, Option.some.injEq] at hd
      subst hd
      have hyy : s.direction.y = 1 := by
        have h1 : (-1 : Int) = -s.direction.y := hy
        omega
      simp [handleKeyPress, hyy]
    | arrowDown =>
      simp only [keyTargetDir, Option.some.injEq] at hd
      subst hd
      have hyy : s.direction.y = -1 := by
        have h1 : (1 : Int) = -s.direction.y := hy
        omega
      simp [handleKeyPress, hyy]
    | arrowLeft =>
      simp only [keyTargetDir, Option.some.injEq] at hd
      subst hd
      have hxx : s.direction.x = 1 := by
        have h1 : (-1 : Int) = -s.direction.x := hx
        omega
      simp [handleKeyPress, hxx]
    | arrowRight =>
      simp only [keyTargetDir, Option.some.injEq] at hd
      subst hd
      have hxx : s.direction.x = -1 := by
        have h1 : (1 : Int) = -s.direction.x := hx
        omega
      simp [handleKeyPress, hxx]
    | space => exact absurd hd (by simp [keyTargetDir])
    | other => exact absurd hd (by simp [keyTargetDir])
  · intro hdir
    unfold handleKeyPress
    split
    · rfl
    · simp [hdir]
  · intro hd hg hw
    rw [happ]
    constructor
    · intro hacc
      cases k with
      | arrowUp =>
        simp only [keyTargetDir, Option.some.injEq] at hd
        subst hd
        simp only [keyAccepted, beq_iff_eq] at hacc
        simp [handleKeyPress, hacc, hg, hw]
      | arrowDown =>
        simp only [keyTargetDir, Option.some.injEq] at hd
        subst hd
        simp only [keyAccepted, beq_iff_eq] at hacc
        simp [handleKeyPress, hacc, hg, hw]
      | arrowLeft =>
        simp only [keyTargetDir, Option.some.injEq] at hd
        subst hd
        simp only [keyAccepted, beq_iff_eq] at hacc
        simp [handleKeyPress, hacc, hg, hw]
      | arrowRight =>
        simp only [keyTargetDir, Option.some.injEq] at hd
        subst hd
        simp only [keyAccepted, beq_iff_eq] at hacc
        simp [handleKeyPress, hacc, hg, hw]
      | space => simp [keyAccepted] at hacc
      | other => simp [keyAccepted] at hacc
    · intro hrej
      cases k with
      | arrowUp =>
        simp only [keyAccepted, beq_eq_false_iff_ne, ne_eq] at hrej
        simp [handleKeyPress, hrej, hg, hw]
      | arrowDown =>
        simp only [keyAccepted, beq_eq_false_iff_ne, ne_eq] at hrej
        simp [handleKeyPress, hrej, hg, hw]
      | arrowLeft =>
        simp only [keyAccepted, beq_eq_false_iff_ne, ne_eq] at hrej
        simp [handleKeyPress, hrej, hg, hw]
      | arrowRight =>
        simp only [keyAccepted, beq_eq_false_iff_ne, ne_eq] at hrej
        simp [handleKeyPress, hrej, hg, hw]
      | space => exact absurd hd (by simp [keyTargetDir])
      | other => exact absurd hd (by simp [keyTargetDir])

/-- Witness for C7: heading (1,0) while playing, a left-arrow request is
ignored. -/
theorem setDirection_spec_witness :
    (handleKeyPress Key.arrowLeft
        { startGame (initialState [] none) with direction := ⟨1, 0⟩ }).direction =
      ({ startGame (initialState [] none) with
          direction := ⟨1, 0⟩ } : EngineState).direction :=
  (setDirection_spec
    { startGame (initialState [] none) with direction := ⟨1, 0⟩ }
    [] Key.arrowLeft ⟨-1, 0⟩).2.1 rfl

/-- C8: after every accepted `savePlayerHighScore` (the name is non-blank
after trimming), the leaderboard is sorted by score descending, holds at
most 5 records, and the full resulting sequence is persisted wholesale to
storage — for any prior leaderboard contents whatsoever. -/
theorem savePlayerHighScore_spec (today : String) (s : EngineState)
    (h : jsTrim s.playerName ≠ "") :
    ScoresSorted (savePlayerHighScore today s).highScores ∧
    (savePlayerHighScore today s).highScores.length ≤ MAX_HIGH_SCORES ∧
    (savePlayerHighScore today s).storage =
      some (savePlayerHighScore today s).highScores := by
  unfold savePlayerHighScore saveHighScores
  rw [if_neg h]
  refine ⟨?_, ?_, rfl⟩
  · exact List.Pairwise.sublist (List.take_sublist _ _) (sorted_sortDesc _)
  · show (List.take MAX_HIGH_SCORES _).length ≤ MAX_HIGH_SCORES
    rw [List.length_take]
    exact Nat.min_le_left _ _

/-- Witness for C8: submitting the name " Ada " (non-blank after trimming)
for a 50-point score on an empty leaderboard. -/
theorem savePlayerHighScore_spec_witness :
    ScoresSorted (savePlayerHighScore "10/12/2026"
        { initialState [] none with
            playerName := " Ada ", newHighScore := 50,
            showNameDialog := true }).highScores ∧
    (savePlayerHighScore "10/12/2026"
        { initialState [] none with
            playerName := " Ada ", newHighScore := 50,
            showNameDialog := true }).highScores.length ≤ MAX_HIGH_SCORES ∧
    (savePlayerHighScore "10/12/2026"
        { initialState [] none with
            playerName := " Ada ", newHighScore := 50,
            showNameDialog := true }).storage =
      some (savePlayerHighScore "10/12/2026"
          { initialState [] none with
              playerName := " Ada ", newHighScore := 50,
              showNameDialog := true }).highScores :=
  savePlayerHighScore_spec "10/12/2026"
    { initialState [] none with
        playerName := " Ada ", newHighScore := 50, showNameDialog := true }
    (by decide)

/-- C9: in every reachable state whose game state is `playing` or `paused`,
the snake body has no duplicate positions (and is nonempty, so this holds
for any length ≥ 1). -/
theorem reachable_snake_nodup (s : EngineState) (h : Reachable s)
    (hgs : s.gameState = GameState.playing ∨ s.gameState = GameState.paused) :
    s.snake.Nodup ∧ s.snake ≠ [] :=
  ⟨(reachable_snakeWF h).2, (reachable_snakeWF h).1⟩

/-- Witness for C9: the state right after the first start is reachable,
playing, and its snake is duplicate-free and nonempty. -/
theorem reachable_snake_nodup_witness :
    (startGame (initialState [] none)).snake.Nodup ∧
    (startGame (initialState [] none)).snake ≠ [] :=
  reachable_snake_nodup (startGame (initialState [] none))
    (Reachable.start (Reachable.init [] none)) (Or.inl rfl)

/-- C10: `startGame` in any state — `waiting`, `paused`, or `gameOver`
alike — unconditionally sets the game state to `playing` and changes
nothing else: snake, food, direction, score, leaderboard and its persisted
copy are all untouched, so starting after a game over resumes the ended
game in place. -/
theorem startGame_spec (s : EngineState) :
    (startGame s).gameState = GameState.playing ∧
    (startGame s).snake = s.snake ∧
    (startGame s).food = s.food ∧
    (startGame s).direction = s.direction ∧
    (startGame s).score = s.score ∧
    (startGame s).highScores = s.highScores ∧
    (startGame s).storage = s.storage :=
  ⟨rfl, rfl, rfl, rfl, rfl, rfl, rfl⟩

end Snake
